import Mathlib

/-!
Verification of the scanner CaffeKernel (src/scanner/kernels/caffe_kernel.cpp).

Shallow embedding notes:
- `descriptor_from_net_file` (lines 40-215) is embedded as a total function from an
  abstract configuration document (`TomlDoc`, mirroring the keys the C++ code looks
  up via `toml::Value::find`) to `Except ConfigError NetDescriptor`.  Each
  `exit(EXIT_FAILURE)` after a diagnostic becomes `.error` carrying the key path
  printed by that diagnostic; control never continues past it, exactly as with
  process exit.
- 32-bit machine integers (`i32`) are embedded as `Int`; the claims concern small
  frame geometries where no overflow occurs.  `f32` arithmetic in
  `new_frame_info` is embedded as exact rational arithmetic (`Rat`), with the
  C++ float-to-int conversion (truncation toward zero) made explicit by
  `f32_to_i32`; in the branches the claims exercise, every intermediate float
  value is an integer or an exact ratio of equal integers, where `f32` and `Rat`
  agree exactly.
- The caffe blob is external to the repository; only its shape is modelled
  (`Blob`), with reshape/reallocation semantics taken from the spec.
- `execute` (lines 291-376) is embedded by its observable bookkeeping: the chunk
  loop, the reshape of `input_blobs[0]`, the rows appended to each output column
  (pointers into the per-chunk output block, modelled as a fresh block id plus a
  byte offset), the block allocation counter, and the shapes bound at each
  forward pass (recorded in a trace).  Tensor contents are not modelled; no
  claim refers to them.
-/

namespace Scanner

/-- A fatal configuration failure; `key` is the key path named by the diagnostic
that `descriptor_from_net_file` prints before calling `exit(EXIT_FAILURE)`. -/
structure ConfigError where
  key : String
deriving Repr, DecidableEq

/-- The `mean-image.colors` sub-table of the configuration document
(lines 149-168 of caffe_kernel.cpp). -/
structure MeanColors where
  blue : Option ℚ
  green : Option ℚ
  red : Option ℚ
deriving Repr, DecidableEq

/-- The `mean-image` table of the configuration document (lines 143-212). -/
structure MeanImageDoc where
  colors : Option MeanColors
  path : Option String
  width : Option Int
  height : Option Int
  hasEmpty : Bool
deriving Repr, DecidableEq

/-- The configuration document, with one field per key the C++ parser looks up.
`Option` marks keys that `find` may fail to locate; the `has*` booleans stand
for table keys whose only use is presence testing. -/
structure TomlDoc where
  hasNet : Bool
  model : Option String
  weights : Option String
  inputLayers : Option (List String)
  outputLayers : Option (List String)
  hasInput : Bool
  hasDimensions : Bool
  channelOrdering : Option (List String)
  inputWidth : Option Int
  inputHeight : Option Int
  preserveAspect : Option Bool
  padMod : Option Int
  normalize : Option Bool
  transpose : Option Bool
  meanImage : Option MeanImageDoc
deriving Repr, DecidableEq

/-- `proto::NetDescriptor` as populated by `descriptor_from_net_file`
(named after the proto fields the C++ code sets; `preserve_aspect` follows the
local variable name in the source).  The raw mean-image pixel payload is not
modelled (no claim touches it); `mean_width`/`mean_height` default to 0, the
proto3 default for unset numeric fields. -/
structure NetDescriptor where
  model_path : String
  model_weights_path : String
  input_layer_names : List String
  output_layer_names : List String
  preserve_aspect : Bool
  input_width : Int
  input_height : Int
  pad_mod : Int
  normalize : Bool
  transpose : Bool
  mean_colors : List ℚ
  mean_width : Int
  mean_height : Int
deriving Repr, DecidableEq

/-- The per-channel mean color list built by the loop over `channel_ordering`
(lines 170-179): colors other than red/green/blue are skipped. -/
def mean_colors_of (channel_ordering : List String) (red green blue : ℚ) : List ℚ :=
  channel_ordering.filterMap fun color =>
    if color = "red" then some red
    else if color = "green" then some green
    else if color = "blue" then some blue
    else none

/-- The aspect-preserving half of the `input_width`/`input_height` resolution
of `descriptor_from_net_file` (caffe_kernel.cpp lines 118-128), returning the
`(input_width, input_height)` pair stored in the descriptor (-1 = unset).
Note the source checks `input_height` first and never rejects a document
carrying both. -/
def resolve_dims_aspect (iw ih : Option Int) : Except ConfigError (Int × Int) :=
  match ih with
  | some h => .ok (-1, h)
  | none =>
    match iw with
    | some w => .ok (w, -1)
    | none => .error ⟨"preserve_aspect_ratio"⟩

/-- The non-aspect half of the resolution (lines 129-132): both dimensions are
stored only when both are present; otherwise both stay unset. -/
def resolve_dims_fixed (iw ih : Option Int) : Except ConfigError (Int × Int) :=
  match iw, ih with
  | some w, some h => .ok (w, h)
  | some _, none => .ok (-1, -1)
  | none, some _ => .ok (-1, -1)
  | none, none => .ok (-1, -1)

/-- Dispatch between the two halves of lines 118-132. -/
def resolve_dims (preserve_aspect : Bool) (iw ih : Option Int) :
    Except ConfigError (Int × Int) :=
  if preserve_aspect then resolve_dims_aspect iw ih else resolve_dims_fixed iw ih

/-- The mean-image three-way choice of `descriptor_from_net_file`
(caffe_kernel.cpp lines 149-212), returning the mean color list and the mean
width/height the branch sets (the raw mean-image pixel payload is not
modelled). -/
def mean_image_resolve (channel_ordering : List String) (mi : MeanImageDoc) :
    Except ConfigError (List ℚ × Int × Int) :=
  match mi.colors with
  | some mc =>
    match mc.blue with
    | none => .error ⟨"mean-image.colors.blue"⟩
    | some blue =>
    match mc.green with
    | none => .error ⟨"mean-image.colors.green"⟩
    | some green =>
    match mc.red with
    | none => .error ⟨"mean-image.colors.red"⟩
    | some red =>
      .ok (mean_colors_of channel_ordering red green blue, 0, 0)
  | none =>
    match mi.path with
    | some _ =>
      match mi.width with
      | none => .error ⟨"mean-image.width"⟩
      | some mw =>
      match mi.height with
      | none => .error ⟨"mean-image.height"⟩
      | some mh =>
        .ok ([], mw, mh)
    | none =>
      if mi.hasEmpty then .ok ([], 0, 0)
      else .error ⟨"mean-image.\x7bcolors,path,empty\x7d"⟩

/-- Embedding of `descriptor_from_net_file` (caffe_kernel.cpp lines 40-215).
Each missing-key check mirrors one `find`/`exit` pair of the source, in source
order; the `input_width`/`input_height` resolution (lines 116-132) is
`resolve_dims` and the mean-image choice (lines 143-212) is
`mean_image_resolve`. -/
def descriptor_from_net_file (doc : TomlDoc) : Except ConfigError NetDescriptor :=
  if doc.hasNet = false then .error ⟨"net"⟩ else
  match doc.model with
  | none => .error ⟨"net.model"⟩
  | some model_path =>
  match doc.weights with
  | none => .error ⟨"net.weights"⟩
  | some weights_path =>
  match doc.inputLayers with
  | none => .error ⟨"net.input_layers"⟩
  | some input_layer_names =>
  match doc.outputLayers with
  | none => .error ⟨"net.output_layers"⟩
  | some output_layer_names =>
  if doc.hasInput = false then .error ⟨"net.input"⟩ else
  if doc.hasDimensions = false then .error ⟨"net.input.dimensions"⟩ else
  match doc.channelOrdering with
  | none => .error ⟨"net.input.channel_ordering"⟩
  | some channel_ordering =>
  match resolve_dims (doc.preserveAspect.getD false) doc.inputWidth doc.inputHeight with
  | .error e => .error e
  | .ok (input_width, input_height) =>
  match doc.meanImage with
  | none => .error ⟨"mean-image"⟩
  | some mi =>
    match mean_image_resolve channel_ordering mi with
    | .error e => .error e
    | .ok (mc, mw, mh) =>
      .ok { model_path := model_path
            model_weights_path := weights_path
            input_layer_names := input_layer_names
            output_layer_names := output_layer_names
            preserve_aspect := doc.preserveAspect.getD false
            input_width := input_width
            input_height := input_height
            pad_mod := match doc.padMod with | some p => p | none => -1
            normalize := doc.normalize.getD false
            transpose := doc.transpose.getD false
            mean_colors := mc
            mean_width := mw
            mean_height := mh }

/-- The part of `CaffeKernel`'s constructor that loads the network
(caffe_kernel.cpp lines 225-226): it runs only when a descriptor was actually
produced — on a parse failure the process has already exited, so no network
load is ever attempted. -/
structure LoadedNet where
  loaded_model : String
  loaded_weights : String
deriving Repr, DecidableEq

/-- Network loading composed after parsing: reaches `loadNetwork` only on a
successfully parsed descriptor. -/
def load_net_for (doc : TomlDoc) : Except ConfigError LoadedNet :=
  match descriptor_from_net_file doc with
  | .error e => .error e
  | .ok d => .ok ⟨d.model_path, d.model_weights_path⟩

/-- The unconditionally required keys of the configuration document: the ones
whose absence makes `descriptor_from_net_file` exit regardless of the other
keys' values. -/
def required_keys_present (doc : TomlDoc) : Prop :=
  doc.hasNet = true ∧ doc.model.isSome = true ∧ doc.weights.isSome = true ∧
  doc.inputLayers.isSome = true ∧ doc.outputLayers.isSome = true ∧
  doc.hasInput = true ∧ doc.hasDimensions = true ∧
  doc.channelOrdering.isSome = true ∧ doc.meanImage.isSome = true

/-- The C++ conversion of a float to `i32` truncates toward zero. -/
def f32_to_i32 (q : ℚ) : Int := if q < 0 then ⌈q⌉ else ⌊q⌋

/-- The width/height derivation of `CaffeKernel::new_frame_info` before padding
(caffe_kernel.cpp lines 257-279).  `f32` arithmetic is embedded as exact
rational arithmetic.  Note that in the `input_width` branch the source
overwrites `width` with `descriptor.input_width()` (line 267) before computing
`scale = input_width / width` (line 268), so there `scale` divides
`input_width` by itself. -/
def derive_pre_pad (frame_width frame_height : Int) (d : NetDescriptor) : Int × Int :=
  let width : Int := if d.transpose then frame_height else frame_width
  let height : Int := if d.transpose then frame_width else frame_height
  if d.preserve_aspect then
    if d.input_width ≠ -1 then
      -- line 267: width := input_width, then line 268 computes the scale from
      -- the already-overwritten width.
      let width2 : Int := d.input_width
      let scale : ℚ := (d.input_width : ℚ) / (width2 : ℚ)
      (f32_to_i32 ((width2 : ℚ) * scale), f32_to_i32 ((height : ℚ) * scale))
    else if d.input_height ≠ -1 then
      let scale : ℚ := (d.input_height : ℚ) / (height : ℚ)
      (f32_to_i32 ((width : ℚ) * scale), f32_to_i32 ((height : ℚ) * scale))
    else
      (width, height)
  else if d.input_width ≠ -1 then
    (d.input_width, d.input_height)
  else
    (width, height)

/-- Padding of one dimension (caffe_kernel.cpp lines 283-284):
`width += (width % pad) ? pad - (width % pad) : 0`.  `Int.tmod` is the C++
`%` on signed integers (truncated remainder). -/
def pad_dim (x pad : Int) : Int :=
  if x.tmod pad ≠ 0 then x + (pad - x.tmod pad) else x

/-- The full `(width, height)` derivation of `new_frame_info`, padding applied
when `pad_mod` is set (lines 281-285). -/
def new_frame_info_dims (frame_width frame_height : Int) (d : NetDescriptor) : Int × Int :=
  let wh := derive_pre_pad frame_width frame_height d
  if d.pad_mod ≠ -1 then (pad_dim wh.1 d.pad_mod, pad_dim wh.2 d.pad_mod) else wh

/-- Shape of a caffe blob `(num, channels, height, width)`.  Only the shape is
modelled; the blob's data is irrelevant to the claims. -/
structure Blob where
  n : Int
  c : Int
  h : Int
  w : Int
deriving Repr, DecidableEq

/-- Modelled from the spec: reshaping the bound input tensor reallocates the
underlying device/host buffers only if some dimension actually changed
(spec section 4.2 step 6; caffe::Blob is outside this repository).  The
returned flag records whether a reallocation occurred. -/
def Blob.reshape (b target : Blob) : Blob × Bool := (target, decide (target ≠ b))

/-- Embedding of `CaffeKernel::new_frame_info` (lines 242-289) acting on the
first input blob: restore the batch dimension if it differs from the configured
batch size (lines 252-255), then bind the newly derived geometry
(lines 287-288).  Returns the final blob and whether any reallocation
occurred. -/
def new_frame_info (batch_size : Int) (d : NetDescriptor)
    (frame_width frame_height : Int) (b : Blob) : Blob × Bool :=
  let s1 := if b.n ≠ batch_size then b.reshape ⟨batch_size, b.c, b.h, b.w⟩ else (b, false)
  let dims := new_frame_info_dims frame_width frame_height d
  let s2 := s1.1.reshape ⟨s1.1.n, s1.1.c, dims.2, dims.1⟩
  (s2.1, s1.2 || s2.2)

/-- One output row as pushed by `execute` (line 368): a pointer into the output
block plus a byte size.  A pointer is modelled as the id of the allocation it
points into plus a byte offset. -/
structure Row where
  blockId : Nat
  off : Nat
  size : Nat
deriving Repr, DecidableEq

/-- The rows `execute` pushes into output column `i` for one chunk
(lines 355-372): the block pointer starts at the base of the chunk's freshly
allocated block and advances by `output_size` per pushed row, layer-major then
frame-minor, so layer `i`'s rows start at byte `bc * sum (sizes before i)` and
stride by `outSizes[i]`. -/
def chunk_col_rows (outSizes : List Nat) (blk bc i : Nat) : List Row :=
  (List.range bc).map fun b =>
    ⟨blk, bc * ((outSizes.take i).sum) + b * outSizes.getD i 0, outSizes.getD i 0⟩

/-- The mutable state `execute` acts on: the bound input blobs (shapes only),
the output columns, the id the next block allocation will get, and a trace
recording, for each forward pass, the input-blob shapes bound at that moment
and the chunk's `batch_count`. -/
structure ExecState where
  blobs : List Blob
  cols : List (List Row)
  nextBlk : Nat
  trace : List (List Blob × Nat)
deriving Repr, DecidableEq

/-- One iteration of the chunk loop in `CaffeKernel::execute`
(lines 307-375) with `batch_count = bc`: reshape the batch dimension of
`input_blobs[0]` — and only of the first blob — when it differs (lines
309-313), run the forward pass (recorded in the trace), allocate one fresh
output block, and append `bc` rows per output layer to the matching output
column. -/
def execute_chunk (outSizes : List Nat) (bc : Nat) (s : ExecState) : ExecState :=
  let blobs :=
    match s.blobs with
    | [] => []
    | b0 :: rest =>
      if b0.n ≠ (bc : Int) then (⟨(bc : Int), b0.c, b0.h, b0.w⟩ : Blob) :: rest
      else b0 :: rest
  let cols := s.cols.mapIdx fun i col =>
    if i < outSizes.length then col ++ chunk_col_rows outSizes s.nextBlk bc i else col
  ⟨blobs, cols, s.nextBlk + 1, s.trace ++ [(blobs, bc)]⟩

/-- Chunk sizes of the loop `for (frame = 0; frame < input_count; frame +=
batch_size)` with `batch_count = min(input_count - frame, batch_size)`
(lines 307-308), computed with structural fuel (`input_count` steps always
suffice because each iteration consumes at least one frame when
`batch_size > 0`). -/
def chunk_sizes_go : Nat → Nat → Nat → List Nat
  | 0, _, _ => []
  | fuel + 1, rem, b =>
    if 0 < rem ∧ 0 < b then min rem b :: chunk_sizes_go fuel (rem - b) b else []

/-- The list of `batch_count` values the chunk loop of `execute` processes, in
order. -/
def chunk_sizes (input_count batch_size : Nat) : List Nat :=
  chunk_sizes_go input_count input_count batch_size

/-- Embedding of `CaffeKernel::execute` (lines 291-376): the chunk loop folded
over the chunk sizes of `input_columns[0].rows.size()` (line 304). -/
def execute (outSizes : List Nat) (batch_size : Nat)
    (input_columns : List (List Row)) (s : ExecState) : ExecState :=
  (chunk_sizes (input_columns.headD []).length batch_size).foldl
    (fun st bc => execute_chunk outSizes bc st) s

/-- The rows that the chunk loop appends to output column `i`, chunk by chunk:
chunk `k` of size `cs[k]` writes into block `blk + k`. -/
def appended_col (outSizes : List Nat) : List Nat → Nat → Nat → List Row
  | [], _, _ => []
  | bc :: cs, blk, i => chunk_col_rows outSizes blk bc i ++ appended_col outSizes cs (blk + 1) i

/-- Two rows occupy disjoint byte ranges. -/
def rows_disjoint (r q : Row) : Prop :=
  r.off + r.size ≤ q.off ∨ q.off + q.size ≤ r.off

instance (r q : Row) : Decidable (rows_disjoint r q) := by
  unfold rows_disjoint; infer_instance

/-! Concrete sample descriptors and documents used by concrete theorems and
witnesses. -/

/-- Descriptor of spec section 8's aspect-preserving test: `preserveAspectRatio
= true`, `inputWidth = 320`, `transpose = false`, no padding. -/
def dAspect320 : NetDescriptor :=
  { model_path := "m.net", model_weights_path := "w.bin",
    input_layer_names := ["data"], output_layer_names := ["prob"],
    preserve_aspect := true, input_width := 320, input_height := -1,
    pad_mod := -1, normalize := false, transpose := false,
    mean_colors := [], mean_width := 0, mean_height := 0 }

/-- Descriptor with fixed resize `300x211` and `pad_mod = 32`. -/
def dPad300 : NetDescriptor :=
  { model_path := "m.net", model_weights_path := "w.bin",
    input_layer_names := ["data"], output_layer_names := ["prob"],
    preserve_aspect := false, input_width := 300, input_height := 211,
    pad_mod := 32, normalize := false, transpose := false,
    mean_colors := [], mean_width := 0, mean_height := 0 }

/-- Descriptor with fixed resize `256x256` (already aligned) and `pad_mod = 32`. -/
def dPad256 : NetDescriptor :=
  { model_path := "m.net", model_weights_path := "w.bin",
    input_layer_names := ["data"], output_layer_names := ["prob"],
    preserve_aspect := false, input_width := 256, input_height := 256,
    pad_mod := 32, normalize := false, transpose := false,
    mean_colors := [], mean_width := 0, mean_height := 0 }

/-- A fully populated, valid configuration document (base for variations). -/
def docFull : TomlDoc :=
  { hasNet := true, model := some "m.net", weights := some "w.bin",
    inputLayers := some ["data"], outputLayers := some ["prob"],
    hasInput := true, hasDimensions := true,
    channelOrdering := some ["red", "green", "blue"],
    inputWidth := none, inputHeight := none, preserveAspect := none,
    padMod := none, normalize := none, transpose := none,
    meanImage := some ⟨none, none, none, none, true⟩ }

/-- A document with `preserve_aspect_ratio = true` and BOTH `input_width` and
`input_height` present. -/
def docBoth : TomlDoc :=
  { docFull with preserveAspect := some true,
                 inputWidth := some 300, inputHeight := some 200 }

/-- The descriptor the parser actually produces for `docBoth`: it succeeds,
`input_height` wins and `input_width` is left unset. -/
def dBoth : NetDescriptor :=
  { model_path := "m.net", model_weights_path := "w.bin",
    input_layer_names := ["data"], output_layer_names := ["prob"],
    preserve_aspect := true, input_width := -1, input_height := 200,
    pad_mod := -1, normalize := false, transpose := false,
    mean_colors := [], mean_width := 0, mean_height := 0 }

/-- A document missing `net.output_layers` (all other required keys present). -/
def docNoOutputLayers : TomlDoc := { docFull with outputLayers := none }

/-- The descriptor the parser produces for `docFull`: aspect preservation off,
both dimensions unset. -/
def dFull : NetDescriptor :=
  { model_path := "m.net", model_weights_path := "w.bin",
    input_layer_names := ["data"], output_layer_names := ["prob"],
    preserve_aspect := false, input_width := -1, input_height := -1,
    pad_mod := -1, normalize := false, transpose := false,
    mean_colors := [], mean_width := 0, mean_height := 0 }

/-- A kernel state with TWO bound input blobs (two input layers), both with
batch dimension 4. -/
def sTwoBlobs : ExecState :=
  { blobs := [⟨4, 3, 8, 8⟩, ⟨4, 3, 8, 8⟩], cols := [[]], nextBlk := 0, trace := [] }

/-- Two input rows in the first input column (a trailing short chunk for
batch size 4). -/
def icTwoRows : List (List Row) := [[⟨0, 0, 4⟩, ⟨0, 4, 4⟩]]

/-- A kernel state with one input blob and two output columns, with 5 blocks
already allocated. -/
def sC3 : ExecState :=
  { blobs := [⟨4, 3, 2, 2⟩], cols := [[], []], nextBlk := 5, trace := [] }

/-- Three input rows living in blocks 0..2 (all smaller than `sC3.nextBlk`). -/
def icC3 : List (List Row) := [[⟨0, 0, 8⟩, ⟨1, 0, 8⟩, ⟨2, 0, 8⟩]]

/-! Helper lemmas. -/

lemma f32_to_i32_intCast (n : Int) : f32_to_i32 (n : ℚ) = n := by
  unfold f32_to_i32
  split <;> simp

/-! C1.  The geometry-change path with transpose false, aspect preservation on
and `input_width` set. -/

/-- C1 counterexample: at frame geometry 640x480 with `inputWidth = 320`, the
claimed formula `height = frameHeight * (inputWidth / frameWidth)` predicts
height `480 * 320 / 640 = 240`, but `new_frame_info` derives `(320, 480)` —
the source overwrites `width` with `input_width` before computing the scale,
so the scale is `320 / 320 = 1` and the height is left unchanged. -/
theorem derive_pre_pad_claimed_scale_false :
    derive_pre_pad 640 480 dAspect320 = (320, 480) ∧
    derive_pre_pad 640 480 dAspect320 ≠ (320, (480 * 320) / 640) := by
  have h : derive_pre_pad 640 480 dAspect320 = (320, 480) := by
    norm_num [derive_pre_pad, dAspect320, f32_to_i32]
  exact ⟨h, by rw [h]; decide⟩

/-- C1 amended: with transpose false, preserveAspectRatio true and
`inputWidth = W > 0` set, the pre-padding dimensions are `width = W` and
`height = frameHeight` unchanged: the scale the source computes is
`inputWidth / inputWidth = 1` because `width` is overwritten before the scale
is taken. -/
theorem derive_pre_pad_aspect_width (fw fh W : Int) (d : NetDescriptor)
    (ht : d.transpose = false) (hp : d.preserve_aspect = true)
    (hw : d.input_width = W) (hW : 0 < W) :
    derive_pre_pad fw fh d = (W, fh) := by
  subst hw
  have hWne : d.input_width ≠ -1 := by omega
  have hcast : (d.input_width : ℚ) ≠ 0 := by
    exact_mod_cast (by omega : d.input_width ≠ 0)
  unfold derive_pre_pad
  rw [ht, hp]
  simp only [if_true, Bool.false_eq_true, if_false, hWne, ite_true, ne_eq,
    not_false_iff]
  rw [div_self hcast, mul_one, mul_one, f32_to_i32_intCast, f32_to_i32_intCast]

/-- C1 witness: the amended theorem at the concrete input of spec section 8. -/
theorem derive_pre_pad_aspect_width_witness :
    derive_pre_pad 640 480 dAspect320 = (320, 480) :=
  derive_pre_pad_aspect_width 640 480 320 dAspect320 rfl rfl rfl (by norm_num)

/-! Parser lemmas. -/

lemma resolve_dims_true_cases (iw ih : Option Int) (a b : Int)
    (h : resolve_dims true iw ih = .ok (a, b)) :
    (∃ hh, ih = some hh ∧ b = hh ∧ a = -1) ∨
      (ih = none ∧ ∃ w, iw = some w ∧ a = w ∧ b = -1) := by
  have h' : resolve_dims_aspect iw ih = .ok (a, b) := by
    simpa [resolve_dims] using h
  cases ih with
  | some hh =>
    simp only [resolve_dims_aspect, Except.ok.injEq, Prod.mk.injEq] at h'
    exact Or.inl ⟨hh, rfl, h'.2.symm, h'.1.symm⟩
  | none =>
    cases iw with
    | some w =>
      simp only [resolve_dims_aspect, Except.ok.injEq, Prod.mk.injEq] at h'
      exact Or.inr ⟨rfl, w, rfl, h'.1.symm, h'.2.symm⟩
    | none => simp [resolve_dims_aspect] at h'

lemma resolve_dims_false_cases (iw ih : Option Int) (a b : Int)
    (h : resolve_dims false iw ih = .ok (a, b)) :
    (∃ w hh, iw = some w ∧ ih = some hh ∧ a = w ∧ b = hh) ∨
      ((iw = none ∨ ih = none) ∧ a = -1 ∧ b = -1) := by
  have h' : resolve_dims_fixed iw ih = .ok (a, b) := by
    simpa [resolve_dims] using h
  cases iw <;> cases ih <;>
    simp only [resolve_dims_fixed, Except.ok.injEq, Prod.mk.injEq] at h'
  · exact Or.inr ⟨Or.inl rfl, h'.1.symm, h'.2.symm⟩
  · exact Or.inr ⟨Or.inl rfl, h'.1.symm, h'.2.symm⟩
  · exact Or.inr ⟨Or.inr rfl, h'.1.symm, h'.2.symm⟩
  · rename_i w hh
    exact Or.inl ⟨w, hh, rfl, rfl, h'.1.symm, h'.2.symm⟩

/-! C5.  Aspect-ratio dimension rules of the parser. -/

/-- C5 counterexample: a document with `preserve_aspect_ratio = true` and BOTH
`input_width` and `input_height` present does NOT fail — the parser takes the
`input_height` branch, succeeds, and leaves `input_width` unset, refuting the
claim that exactly one of the two must be present. -/
theorem parse_both_dims_succeeds :
    descriptor_from_net_file docBoth = .ok dBoth := by
  rfl

/-- C5 amended: with `preserve_aspect_ratio = true` the parser fails with a
`ConfigError` only when NEITHER `input_width` nor `input_height` is present;
when `input_height` is present (even alongside `input_width`) it is used and
`input_width` is left unset (-1); when only `input_width` is present it is used
and `input_height` is left unset (-1). -/
theorem parse_aspect_dims_resolution :
    (∀ (doc : TomlDoc) (d : NetDescriptor),
      descriptor_from_net_file doc = .ok d → d.preserve_aspect = true →
      ((∃ hh, doc.inputHeight = some hh ∧ d.input_height = hh ∧ d.input_width = -1)
       ∨ (doc.inputHeight = none ∧
          ∃ w, doc.inputWidth = some w ∧ d.input_width = w ∧ d.input_height = -1)))
    ∧ (∀ doc : TomlDoc, doc.preserveAspect = some true →
        doc.inputWidth = none → doc.inputHeight = none →
        doc.hasNet = true → doc.model.isSome = true → doc.weights.isSome = true →
        doc.inputLayers.isSome = true → doc.outputLayers.isSome = true →
        doc.hasInput = true → doc.hasDimensions = true →
        doc.channelOrdering.isSome = true →
        descriptor_from_net_file doc = .error ⟨"preserve_aspect_ratio"⟩) := by
  constructor
  · intro doc d h hpa
    unfold descriptor_from_net_file at h
    repeat' split at h
    all_goals try exact Except.noConfusion h
    all_goals
      (injection h with h; subst h; dsimp only at hpa ⊢;
       exact resolve_dims_true_cases _ _ _ _ (by rw [← hpa]; assumption))
  · intro doc hpa hiw hih hn hm hw hi ho hinp hdim hco
    obtain ⟨m, hm'⟩ := Option.isSome_iff_exists.mp hm
    obtain ⟨w, hw'⟩ := Option.isSome_iff_exists.mp hw
    obtain ⟨il, hi'⟩ := Option.isSome_iff_exists.mp hi
    obtain ⟨ol, ho'⟩ := Option.isSome_iff_exists.mp ho
    obtain ⟨co, hco'⟩ := Option.isSome_iff_exists.mp hco
    simp [descriptor_from_net_file, resolve_dims, resolve_dims_aspect, hpa,
      hiw, hih, hn, hm', hw', hi', ho', hinp, hdim, hco']

/-- C5 witness: the amended theorem's success branch at the both-present
document. -/
theorem parse_aspect_dims_resolution_witness :
    (∃ hh, docBoth.inputHeight = some hh ∧ dBoth.input_height = hh ∧
        dBoth.input_width = -1)
    ∨ (docBoth.inputHeight = none ∧
       ∃ w, docBoth.inputWidth = some w ∧ dBoth.input_width = w ∧
          dBoth.input_height = -1) :=
  parse_aspect_dims_resolution.1 docBoth dBoth (by rfl) (by rfl)

/-! C6.  Missing required keys. -/

/-- C6: a document missing `net.output_layers` (earlier required keys present)
makes the parser fail naming exactly that key path, and no network load is
attempted (the load step never runs on a parse failure); moreover any
successfully parsed document has every unconditionally required key present, so
a document missing any of them (net, net.model, net.weights, net.input_layers,
net.output_layers, net.input, net.input.dimensions,
net.input.channel_ordering, mean-image) fails fatally. -/
theorem parse_missing_required_key :
    (∀ doc : TomlDoc, doc.hasNet = true → doc.model.isSome = true →
      doc.weights.isSome = true → doc.inputLayers.isSome = true →
      doc.outputLayers = none →
      descriptor_from_net_file doc = .error ⟨"net.output_layers"⟩ ∧
        load_net_for doc = .error ⟨"net.output_layers"⟩)
    ∧ (∀ (doc : TomlDoc) (d : NetDescriptor),
        descriptor_from_net_file doc = .ok d → required_keys_present doc) := by
  constructor
  · intro doc hn hm hw hi ho
    obtain ⟨m, hm'⟩ := Option.isSome_iff_exists.mp hm
    obtain ⟨w, hw'⟩ := Option.isSome_iff_exists.mp hw
    obtain ⟨il, hi'⟩ := Option.isSome_iff_exists.mp hi
    have hp : descriptor_from_net_file doc = .error ⟨"net.output_layers"⟩ := by
      simp [descriptor_from_net_file, hn, hm', hw', hi', ho]
    exact ⟨hp, by simp [load_net_for, hp]⟩
  · intro doc d h
    unfold descriptor_from_net_file at h
    repeat' split at h
    all_goals first
      | exact Except.noConfusion h
      | simp_all [required_keys_present]

/-- C6 witness: the document missing `net.output_layers`. -/
theorem parse_missing_required_key_witness :
    descriptor_from_net_file docNoOutputLayers = .error ⟨"net.output_layers"⟩ ∧
      load_net_for docNoOutputLayers = .error ⟨"net.output_layers"⟩ :=
  parse_missing_required_key.1 docNoOutputLayers rfl rfl rfl rfl rfl

/-! C9.  The non-aspect invariant of successfully parsed descriptors. -/

/-- C9: every descriptor the parser produces with aspect preservation off has
`input_width` set (not -1) iff `input_height` is set (not -1) — provided the
document's dimension values themselves are positive — and a document supplying
only one of the two (or neither) leaves both unset.  This is the invariant the
shape planner's non-aspect branch relies on when it assigns both dimensions
after testing only `input_width != -1`. -/
theorem parse_non_aspect_invariant :
    ∀ (doc : TomlDoc) (d : NetDescriptor),
      descriptor_from_net_file doc = .ok d → d.preserve_aspect = false →
      (∀ w, doc.inputWidth = some w → 0 < w) →
      (∀ hh, doc.inputHeight = some hh → 0 < hh) →
      ((d.input_width ≠ -1 ↔ d.input_height ≠ -1) ∧
        ((doc.inputWidth = none ∨ doc.inputHeight = none) →
          d.input_width = -1 ∧ d.input_height = -1)) := by
  intro doc d h hpa hposw hposh
  unfold descriptor_from_net_file at h
  repeat' split at h
  all_goals try exact Except.noConfusion h
  all_goals
    (injection h with h; subst h; dsimp only at hpa ⊢;
     rcases resolve_dims_false_cases _ _ _ _ (by rw [← hpa]; assumption) with
        ⟨w, hh, hiw, hih, ha, hb⟩ | ⟨hnone, ha, hb⟩
      <;> [skip; exact ⟨by rw [ha, hb], fun _ => ⟨ha, hb⟩⟩]
      <;> (have hwpos := hposw w hiw
           have hhpos := hposh hh hih
           refine ⟨by constructor <;> intro <;> omega, ?_⟩
           intro hcase
           rcases hcase with hc | hc
           · rw [hiw] at hc; exact Option.noConfusion hc
           · rw [hih] at hc; exact Option.noConfusion hc))

/-- C9 witness: the invariant at the minimal valid document (neither dimension
present). -/
theorem parse_non_aspect_invariant_witness :
    ((dFull.input_width ≠ -1 ↔ dFull.input_height ≠ -1) ∧
      ((docFull.inputWidth = none ∨ docFull.inputHeight = none) →
        dFull.input_width = -1 ∧ dFull.input_height = -1)) :=
  parse_non_aspect_invariant docFull dFull (by rfl) (by rfl)
    (by intro w hw; simp [docFull] at hw)
    (by intro hh hw; simp [docFull] at hw)

/-! C7.  Padding alignment. -/

/-- C7: when `pad_mod = pad > 0` is set, the geometry-change path applies
`pad_dim` to both derived dimensions, and `pad_dim` rounds a nonnegative value
up to the next multiple of `pad` (it yields the least multiple of `pad` that is
`≥ x`, and is the identity on multiples); concretely `(300, 211)` with
`pad_mod = 32` becomes `(320, 224)` and `(256, 256)` stays unchanged. -/
theorem pad_mod_rounding :
    (∀ x pad : Int, 0 ≤ x → 0 < pad →
      pad ∣ pad_dim x pad ∧ x ≤ pad_dim x pad ∧ pad_dim x pad < x + pad ∧
        (pad ∣ x → pad_dim x pad = x))
    ∧ (∀ fw fh d, d.pad_mod ≠ -1 →
        new_frame_info_dims fw fh d =
          (pad_dim (derive_pre_pad fw fh d).1 d.pad_mod,
           pad_dim (derive_pre_pad fw fh d).2 d.pad_mod))
    ∧ new_frame_info_dims 640 480 dPad300 = (320, 224)
    ∧ new_frame_info_dims 640 480 dPad256 = (256, 256) := by
  refine ⟨?_, ?_, by decide, by decide⟩
  · intro x pad hx hp
    have htm : x.tmod pad = x % pad := Int.tmod_eq_emod hx (le_of_lt hp)
    have hdm : pad * (x / pad) + x % pad = x := Int.ediv_add_emod x pad
    have h0 : 0 ≤ x % pad := Int.emod_nonneg x (ne_of_gt hp)
    have h1 : x % pad < pad := Int.emod_lt_of_pos x hp
    unfold pad_dim
    rw [htm]
    by_cases hr : x % pad = 0
    · have hdvd : pad ∣ x := Int.dvd_of_emod_eq_zero hr
      rw [if_neg (fun hc => hc hr)]
      exact ⟨hdvd, le_refl x, by omega, fun _ => rfl⟩
    · rw [if_pos hr]
      refine ⟨⟨x / pad + 1, by linarith⟩, by omega, by omega, ?_⟩
      intro hdvd
      exact absurd (Int.emod_eq_zero_of_dvd hdvd) hr
  · intro fw fh d hpm
    unfold new_frame_info_dims
    simp [hpm]

/-- C7 witness: the universal rounding part at `x = 300`, `pad = 32`. -/
theorem pad_mod_rounding_witness :
    (32 : Int) ∣ pad_dim 300 32 ∧ (300 : Int) ≤ pad_dim 300 32 ∧
      pad_dim 300 32 < 300 + 32 ∧ ((32 : Int) ∣ 300 → pad_dim 300 32 = 300) :=
  pad_mod_rounding.1 300 32 (by norm_num) (by norm_num)

/-! C8.  Idempotence of the geometry-change path. -/

/-- C8: running `new_frame_info` twice with the same frame geometry, descriptor
and batch size derives the identical input-tensor shape the second time, so the
second run performs no reshape and no reallocation: it returns the blob of the
first run unchanged with the reallocation flag false. -/
theorem new_frame_info_idempotent (batch_size : Int) (d : NetDescriptor)
    (fw fh : Int) (b : Blob) :
    new_frame_info batch_size d fw fh (new_frame_info batch_size d fw fh b).1 =
      ((new_frame_info batch_size d fw fh b).1, false) := by
  unfold new_frame_info Blob.reshape
  by_cases hb : b.n = batch_size <;> simp [hb]

/-! Chunk-loop lemmas. -/

lemma chunk_sizes_go_eq (b : Nat) :
    ∀ fuel fuel' rem, rem ≤ fuel → rem ≤ fuel' →
      chunk_sizes_go fuel rem b = chunk_sizes_go fuel' rem b := by
  intro fuel
  induction fuel with
  | zero =>
    intro fuel' rem h1 h2
    have hr : rem = 0 := Nat.le_zero.mp h1
    subst hr
    cases fuel' with
    | zero => rfl
    | succ f => simp [chunk_sizes_go]
  | succ f ih =>
    intro fuel' rem h1 h2
    cases fuel' with
    | zero =>
      have hr : rem = 0 := Nat.le_zero.mp h2
      subst hr
      simp [chunk_sizes_go]
    | succ f2 =>
      simp only [chunk_sizes_go]
      by_cases hc : 0 < rem ∧ 0 < b
      · rw [if_pos hc, if_pos hc]
        rw [ih f2 (rem - b) (by omega) (by omega)]
      · rw [if_neg hc, if_neg hc]

lemma chunk_sizes_unfold (n b : Nat) :
    chunk_sizes n b = if 0 < n ∧ 0 < b then min n b :: chunk_sizes (n - b) b else [] := by
  unfold chunk_sizes
  cases n with
  | zero => simp [chunk_sizes_go]
  | succ m =>
    simp only [chunk_sizes_go]
    by_cases hc : 0 < m + 1 ∧ 0 < b
    · rw [if_pos hc, if_pos hc]
      rw [chunk_sizes_go_eq b m (m + 1 - b) (m + 1 - b) (by omega) (le_refl _)]
    · rw [if_neg hc, if_neg hc]

lemma chunk_sizes_sum (b : Nat) (hb : 0 < b) :
    ∀ n, (chunk_sizes n b).sum = n := by
  intro n
  induction n using Nat.strongRecOn with
  | ind n ih =>
    rw [chunk_sizes_unfold]
    by_cases hc : 0 < n ∧ 0 < b
    · rw [if_pos hc]
      simp only [List.sum_cons]
      rw [ih (n - b) (by omega)]
      omega
    · rw [if_neg hc]
      simp only [List.sum_nil]
      omega

lemma chunk_sizes_length (b : Nat) (hb : 0 < b) :
    ∀ n, (chunk_sizes n b).length = (n + b - 1) / b := by
  intro n
  induction n using Nat.strongRecOn with
  | ind n ih =>
    rw [chunk_sizes_unfold]
    by_cases hc : 0 < n ∧ 0 < b
    · rw [if_pos hc]
      simp only [List.length_cons]
      rw [ih (n - b) (by omega)]
      by_cases hnb : n ≤ b
      · have h0 : n - b = 0 := by omega
        rw [h0]
        have l1 : (0 + b - 1) / b = 0 := Nat.div_eq_of_lt (by omega)
        have r1 : (n + b - 1) / b = 1 := by
          have e : n + b - 1 = (n - 1) + b := by omega
          rw [e, Nat.add_div_right _ hb, Nat.div_eq_of_lt (by omega)]
        rw [l1, r1]
      · have e1 : (n - b) + b - 1 = (n - b - 1) + b := by omega
        have e2 : n + b - 1 = ((n - b - 1) + b) + b := by omega
        rw [e1, Nat.add_div_right _ hb, e2, Nat.add_div_right _ hb,
          Nat.add_div_right _ hb]
    · rw [if_neg hc]
      have h0 : n = 0 := by omega
      subst h0
      rw [Nat.div_eq_of_lt (by omega)]
      rfl

/-! Per-chunk output-row lemmas. -/

lemma chunk_col_rows_length (outSizes : List Nat) (blk bc i : Nat) :
    (chunk_col_rows outSizes blk bc i).length = bc := by
  simp [chunk_col_rows]

lemma mem_chunk_col_rows {outSizes : List Nat} {blk bc i : Nat} {r : Row} :
    r ∈ chunk_col_rows outSizes blk bc i ↔
      ∃ b, b < bc ∧
        r = ⟨blk, bc * ((outSizes.take i).sum) + b * outSizes.getD i 0,
          outSizes.getD i 0⟩ := by
  simp only [chunk_col_rows, List.mem_map, List.mem_range]
  constructor
  · rintro ⟨b, hb, rfl⟩
    exact ⟨b, hb, rfl⟩
  · rintro ⟨b, hb, rfl⟩
    exact ⟨b, hb, rfl⟩

lemma chunk_col_rows_blockId {outSizes : List Nat} {blk bc i : Nat} {r : Row}
    (h : r ∈ chunk_col_rows outSizes blk bc i) : r.blockId = blk := by
  obtain ⟨b, -, rfl⟩ := mem_chunk_col_rows.mp h
  rfl

lemma chunk_col_rows_nodup (outSizes : List Nat) (blk bc i : Nat)
    (hs : 0 < outSizes.getD i 0) : (chunk_col_rows outSizes blk bc i).Nodup := by
  apply List.Nodup.map ?_ (List.nodup_range bc)
  intro b1 b2 he
  simp only [Row.mk.injEq] at he
  obtain ⟨-, h2, -⟩ := he
  have h3 : b1 * outSizes.getD i 0 = b2 * outSizes.getD i 0 := by omega
  exact Nat.eq_of_mul_eq_mul_right hs h3

lemma sum_take_mono (l : List Nat) : ∀ {i j : Nat}, i ≤ j →
    (l.take i).sum ≤ (l.take j).sum := by
  induction l with
  | nil => simp
  | cons a t ih =>
    intro i j h
    cases i with
    | zero => simp
    | succ i2 =>
      cases j with
      | zero => omega
      | succ j2 =>
        simp only [List.take_succ_cons, List.sum_cons]
        exact Nat.add_le_add_left (ih (Nat.succ_le_succ_iff.mp h)) a

lemma chunk_off_le {outSizes : List Nat} {bc i j b1 : Nat}
    (hi : i < outSizes.length) (hij : i < j) (hb1 : b1 < bc) :
    bc * ((outSizes.take i).sum) + b1 * outSizes.getD i 0 + outSizes.getD i 0 ≤
      bc * ((outSizes.take j).sum) := by
  have hgd : outSizes.getD i 0 = outSizes[i] := List.getD_eq_getElem outSizes 0 hi
  calc bc * ((outSizes.take i).sum) + b1 * outSizes.getD i 0 + outSizes.getD i 0
      = bc * ((outSizes.take i).sum) + (b1 + 1) * outSizes.getD i 0 := by
        rw [Nat.succ_mul]; omega
    _ ≤ bc * ((outSizes.take i).sum) + bc * outSizes.getD i 0 :=
        Nat.add_le_add_left (Nat.mul_le_mul_right _ (by omega)) _
    _ = bc * ((outSizes.take i).sum + outSizes.getD i 0) := by rw [Nat.mul_add]
    _ = bc * ((outSizes.take (i + 1)).sum) := by
        rw [hgd, ← List.sum_take_succ outSizes i hi]
    _ ≤ bc * ((outSizes.take j).sum) :=
        Nat.mul_le_mul_left bc (sum_take_mono outSizes (by omega))

lemma chunk_col_rows_pairwise {outSizes : List Nat} {blk bc i j : Nat}
    (hi : i < outSizes.length) (hj : j < outSizes.length) {r q : Row}
    (hr : r ∈ chunk_col_rows outSizes blk bc i)
    (hq : q ∈ chunk_col_rows outSizes blk bc j) :
    (i = j ∧ r = q) ∨ rows_disjoint r q := by
  obtain ⟨b1, hb1, rfl⟩ := mem_chunk_col_rows.mp hr
  obtain ⟨b2, hb2, rfl⟩ := mem_chunk_col_rows.mp hq
  rcases Nat.lt_trichotomy i j with hij | rfl | hij
  · exact Or.inr (Or.inl (le_trans (chunk_off_le hi hij hb1) (Nat.le_add_right _ _)))
  · rcases Nat.lt_trichotomy b1 b2 with hb | rfl | hb
    · refine Or.inr (Or.inl ?_)
      show bc * ((outSizes.take i).sum) + b1 * outSizes.getD i 0 + outSizes.getD i 0 ≤
        bc * ((outSizes.take i).sum) + b2 * outSizes.getD i 0
      have h2 : b1 * outSizes.getD i 0 + outSizes.getD i 0 ≤ b2 * outSizes.getD i 0 :=
        calc b1 * outSizes.getD i 0 + outSizes.getD i 0
            = (b1 + 1) * outSizes.getD i 0 := by rw [Nat.succ_mul]
          _ ≤ b2 * outSizes.getD i 0 := Nat.mul_le_mul_right _ (by omega)
      omega
    · exact Or.inl ⟨rfl, rfl⟩
    · refine Or.inr (Or.inr ?_)
      show bc * ((outSizes.take i).sum) + b2 * outSizes.getD i 0 + outSizes.getD i 0 ≤
        bc * ((outSizes.take i).sum) + b1 * outSizes.getD i 0
      have h2 : b2 * outSizes.getD i 0 + outSizes.getD i 0 ≤ b1 * outSizes.getD i 0 :=
        calc b2 * outSizes.getD i 0 + outSizes.getD i 0
            = (b2 + 1) * outSizes.getD i 0 := by rw [Nat.succ_mul]
          _ ≤ b1 * outSizes.getD i 0 := Nat.mul_le_mul_right _ (by omega)
      omega
  · exact Or.inr (Or.inr (le_trans (chunk_off_le hj hij hb2) (Nat.le_add_right _ _)))

/-! Lemmas about the rows the whole chunk loop appends. -/

lemma appended_col_length (outSizes : List Nat) :
    ∀ (cs : List Nat) (blk i : Nat),
      (appended_col outSizes cs blk i).length = cs.sum := by
  intro cs
  induction cs with
  | nil => intro blk i; rfl
  | cons bc cs ih =>
    intro blk i
    simp [appended_col, chunk_col_rows_length, ih]

lemma appended_col_blockId_ge (outSizes : List Nat) :
    ∀ (cs : List Nat) (blk i : Nat) (r : Row),
      r ∈ appended_col outSizes cs blk i → blk ≤ r.blockId := by
  intro cs
  induction cs with
  | nil => intro blk i r h; simp [appended_col] at h
  | cons bc cs ih =>
    intro blk i r h
    simp only [appended_col, List.mem_append] at h
    rcases h with h | h
    · have := chunk_col_rows_blockId h
      omega
    · have := ih (blk + 1) i r h
      omega

lemma appended_col_nodup (outSizes : List Nat) (hpos : ∀ z ∈ outSizes, 0 < z) :
    ∀ (cs : List Nat) (blk i : Nat), i < outSizes.length →
      (appended_col outSizes cs blk i).Nodup := by
  intro cs
  induction cs with
  | nil => intro blk i hi; simp [appended_col]
  | cons bc cs ih =>
    intro blk i hi
    refine List.Nodup.append ?_ (ih (blk + 1) i hi) ?_
    · apply chunk_col_rows_nodup
      rw [List.getD_eq_getElem outSizes 0 hi]
      exact hpos _ (List.getElem_mem hi)
    · intro r hr hr2
      have h1 := chunk_col_rows_blockId hr
      have h2 := appended_col_blockId_ge outSizes cs (blk + 1) i r hr2
      omega

lemma appended_col_pairwise (outSizes : List Nat) :
    ∀ (cs : List Nat) (blk i j : Nat), i < outSizes.length → j < outSizes.length →
      ∀ r ∈ appended_col outSizes cs blk i, ∀ q ∈ appended_col outSizes cs blk j,
        r.blockId = q.blockId → (i = j ∧ r = q) ∨ rows_disjoint r q := by
  intro cs
  induction cs with
  | nil => intro blk i j hi hj r hr; simp [appended_col] at hr
  | cons bc cs ih =>
    intro blk i j hi hj r hr q hq hbid
    simp only [appended_col, List.mem_append] at hr hq
    rcases hr with hr | hr <;> rcases hq with hq | hq
    · exact chunk_col_rows_pairwise hi hj hr hq
    · exfalso
      have h1 := chunk_col_rows_blockId hr
      have h2 := appended_col_blockId_ge outSizes cs (blk + 1) j q hq
      omega
    · exfalso
      have h1 := chunk_col_rows_blockId hq
      have h2 := appended_col_blockId_ge outSizes cs (blk + 1) i r hr
      omega
    · exact ih (blk + 1) i j hi hj r hr q hq hbid

/-! Single-chunk and chunk-loop state lemmas. -/

lemma execute_chunk_nextBlk (outSizes : List Nat) (bc : Nat) (s : ExecState) :
    (execute_chunk outSizes bc s).nextBlk = s.nextBlk + 1 := rfl

lemma execute_chunk_cols_length (outSizes : List Nat) (bc : Nat) (s : ExecState) :
    (execute_chunk outSizes bc s).cols.length = s.cols.length := by
  simp [execute_chunk]

lemma execute_chunk_cols_getD (outSizes : List Nat) (bc : Nat) (s : ExecState)
    {i : Nat} (hi : i < outSizes.length) (hlen : i < s.cols.length) :
    (execute_chunk outSizes bc s).cols.getD i [] =
      s.cols.getD i [] ++ chunk_col_rows outSizes s.nextBlk bc i := by
  unfold execute_chunk
  dsimp only
  rw [List.getD_eq_getElem _ _ (by simpa using hlen),
    List.getD_eq_getElem _ _ hlen, List.getElem_mapIdx]
  rw [if_pos hi]

lemma execute_chunk_trace_length (outSizes : List Nat) (bc : Nat) (s : ExecState) :
    (execute_chunk outSizes bc s).trace.length = s.trace.length + 1 := by
  simp [execute_chunk]

lemma foldl_chunks_cols (outSizes : List Nat) :
    ∀ (cs : List Nat) (s : ExecState) (i : Nat), i < outSizes.length →
      i < s.cols.length →
      (cs.foldl (fun st bc => execute_chunk outSizes bc st) s).cols.getD i [] =
        s.cols.getD i [] ++ appended_col outSizes cs s.nextBlk i := by
  intro cs
  induction cs with
  | nil => intro s i hi hlen; simp [appended_col]
  | cons bc cs ih =>
    intro s i hi hlen
    rw [List.foldl_cons]
    rw [ih (execute_chunk outSizes bc s) i hi
      (by rw [execute_chunk_cols_length]; exact hlen)]
    rw [execute_chunk_cols_getD outSizes bc s hi hlen, execute_chunk_nextBlk]
    rw [List.append_assoc]
    rfl

lemma foldl_chunks_trace_length (outSizes : List Nat) :
    ∀ (cs : List Nat) (s : ExecState),
      (cs.foldl (fun st bc => execute_chunk outSizes bc st) s).trace.length =
        s.trace.length + cs.length := by
  intro cs
  induction cs with
  | nil => intro s; rfl
  | cons bc cs ih =>
    intro s
    rw [List.foldl_cons, ih, execute_chunk_trace_length]
    simp only [List.length_cons]
    omega

lemma foldl_chunks_blobs (outSizes : List Nat) (c0 h0 w0 : Int) (rest : List Blob) :
    ∀ (cs : List Nat) (s : ExecState),
      (∃ m : Blob, s.blobs = m :: rest ∧ m.c = c0 ∧ m.h = h0 ∧ m.w = w0) →
      ((∃ m : Blob,
          (cs.foldl (fun st bc => execute_chunk outSizes bc st) s).blobs = m :: rest ∧
            m.c = c0 ∧ m.h = h0 ∧ m.w = w0) ∧
        ∀ e ∈ (cs.foldl (fun st bc => execute_chunk outSizes bc st) s).trace,
          e ∈ s.trace ∨
            ∃ m : Blob, e.1 = m :: rest ∧ m.n = (e.2 : Int) ∧
              m.c = c0 ∧ m.h = h0 ∧ m.w = w0) := by
  intro cs
  induction cs with
  | nil =>
    intro s hP
    exact ⟨hP, fun e he => Or.inl he⟩
  | cons bc cs ih =>
    intro s hP
    obtain ⟨m, hm, hc, hh, hw⟩ := hP
    have hstep : (execute_chunk outSizes bc s).blobs =
        (if m.n ≠ (bc : Int) then (⟨(bc : Int), m.c, m.h, m.w⟩ : Blob) else m) :: rest := by
      simp only [execute_chunk, hm]
      by_cases hn : m.n = (bc : Int) <;> simp [hn]
    have hP2 : ∃ m2 : Blob, (execute_chunk outSizes bc s).blobs = m2 :: rest ∧
        m2.c = c0 ∧ m2.h = h0 ∧ m2.w = w0 := by
      refine ⟨_, hstep, ?_, ?_, ?_⟩ <;> by_cases hn : m.n = (bc : Int) <;>
        simp [hn, hc, hh, hw]
    have hQ : ∃ m2 : Blob, (execute_chunk outSizes bc s).blobs = m2 :: rest ∧
        m2.n = (bc : Int) ∧ m2.c = c0 ∧ m2.h = h0 ∧ m2.w = w0 := by
      by_cases hn : m.n = (bc : Int)
      · exact ⟨m, by rw [hstep]; simp [hn], hn, hc, hh, hw⟩
      · exact ⟨⟨(bc : Int), m.c, m.h, m.w⟩, by rw [hstep]; simp [hn], rfl, hc, hh, hw⟩
    rw [List.foldl_cons]
    obtain ⟨ihP, ihT⟩ := ih (execute_chunk outSizes bc s) hP2
    refine ⟨ihP, ?_⟩
    intro e he
    rcases ihT e he with hin | hQe
    · have htr : (execute_chunk outSizes bc s).trace =
          s.trace ++ [((execute_chunk outSizes bc s).blobs, bc)] := rfl
      rw [htr, List.mem_append, List.mem_singleton] at hin
      rcases hin with hin | rfl
      · exact Or.inl hin
      · right
        obtain ⟨m2, hm2, hn2, hc2, hh2, hw2⟩ := hQ
        exact ⟨m2, hm2, hn2, hc2, hh2, hw2⟩
    · exact Or.inr hQe

/-! C2.  Batch partitioning. -/

/-- C2: the chunk loop follows the recursion `batch_count = min(remaining,
batch_size)`; with `batch_size > 0` it processes `ceil(input_count /
batch_size)` chunks summing to `input_count`; concretely `chunk_sizes 10 4 =
[4, 4, 2]`; every output column receives exactly `input_count` appended rows;
and `execute` runs one forward pass per chunk. -/
theorem execute_batch_partition :
    (∀ n b : Nat, chunk_sizes n b =
        if 0 < n ∧ 0 < b then min n b :: chunk_sizes (n - b) b else [])
    ∧ (∀ n b : Nat, 0 < b →
        (chunk_sizes n b).length = (n + b - 1) / b ∧ (chunk_sizes n b).sum = n)
    ∧ chunk_sizes 10 4 = [4, 4, 2]
    ∧ (∀ (outSizes : List Nat) (blk i n b : Nat), 0 < b →
        (appended_col outSizes (chunk_sizes n b) blk i).length = n)
    ∧ (∀ (outSizes : List Nat) (b : Nat) (ic : List (List Row)) (s : ExecState),
        (execute outSizes b ic s).trace.length =
          s.trace.length + (chunk_sizes (ic.headD []).length b).length) := by
  refine ⟨chunk_sizes_unfold, ?_, by decide, ?_, ?_⟩
  · intro n b hb
    exact ⟨chunk_sizes_length b hb n, chunk_sizes_sum b hb n⟩
  · intro outSizes blk i n b hb
    rw [appended_col_length, chunk_sizes_sum b hb]
  · intro outSizes b ic s
    exact foldl_chunks_trace_length outSizes _ s

/-- C2 witness: the partition facts at `input_count = 10`, `batch_size = 4`. -/
theorem execute_batch_partition_witness :
    (chunk_sizes 10 4).length = (10 + 4 - 1) / 4 ∧ (chunk_sizes 10 4).sum = 10 ∧
      chunk_sizes 10 4 = [4, 4, 2] ∧
      (appended_col [8] (chunk_sizes 10 4) 0 0).length = 10 :=
  ⟨(execute_batch_partition.2.1 10 4 (by decide)).1,
   (execute_batch_partition.2.1 10 4 (by decide)).2,
   execute_batch_partition.2.2.1,
   execute_batch_partition.2.2.2.1 [8] 0 0 10 4 (by decide)⟩

/-! C3.  Output-row contract of `execute`. -/

/-- C3: for every call to `execute` (with positive batch size, positive
per-layer output sizes, one registered output column per output layer, and all
input rows living in blocks allocated before the call), each output column `i`
receives exactly the rows `appended_col ... i` — one row per input frame, in
frame order (chunk by chunk, frame-minor within a chunk), with no row dropped
or duplicated (`Nodup`); every appended row lives in a block allocated by this
call (so it never aliases an input buffer); and two rows of different columns
never overlap in memory (same block ⇒ disjoint byte ranges). -/
theorem execute_output_rows_contract
    (outSizes : List Nat) (batch_size : Nat) (input_columns : List (List Row))
    (s : ExecState)
    (hb : 0 < batch_size)
    (hpos : ∀ z ∈ outSizes, 0 < z)
    (hcols : s.cols.length = outSizes.length)
    (hfresh : ∀ col ∈ input_columns, ∀ ro ∈ col, ro.blockId < s.nextBlk) :
    (∀ i, i < outSizes.length →
      (execute outSizes batch_size input_columns s).cols.getD i [] =
          s.cols.getD i [] ++
            appended_col outSizes
              (chunk_sizes (input_columns.headD []).length batch_size) s.nextBlk i ∧
        (appended_col outSizes
            (chunk_sizes (input_columns.headD []).length batch_size)
            s.nextBlk i).length = (input_columns.headD []).length ∧
        (appended_col outSizes
            (chunk_sizes (input_columns.headD []).length batch_size)
            s.nextBlk i).Nodup ∧
        ∀ ro ∈ appended_col outSizes
            (chunk_sizes (input_columns.headD []).length batch_size) s.nextBlk i,
          ∀ col ∈ input_columns, ∀ rin ∈ col, ro.blockId ≠ rin.blockId)
    ∧ ∀ i j, i < outSizes.length → j < outSizes.length →
        ∀ ro ∈ appended_col outSizes
            (chunk_sizes (input_columns.headD []).length batch_size) s.nextBlk i,
          ∀ q ∈ appended_col outSizes
              (chunk_sizes (input_columns.headD []).length batch_size) s.nextBlk j,
            ro.blockId = q.blockId → (i = j ∧ ro = q) ∨ rows_disjoint ro q := by
  constructor
  · intro i hi
    refine ⟨?_, ?_, ?_, ?_⟩
    · exact foldl_chunks_cols outSizes _ s i hi (by rw [hcols]; exact hi)
    · rw [appended_col_length, chunk_sizes_sum batch_size hb]
    · exact appended_col_nodup outSizes hpos _ s.nextBlk i hi
    · intro ro hro col hcol rin hrin
      have h1 := appended_col_blockId_ge outSizes _ s.nextBlk i ro hro
      have h2 := hfresh col hcol rin hrin
      omega
  · intro i j hi hj
    exact appended_col_pairwise outSizes _ s.nextBlk i j hi hj

/-- C3 witness: the contract at the concrete two-output-layer state `sC3`
(spec section 8's `numOutputs = 2, batchCount = 3`). -/
theorem execute_output_rows_contract_witness :
    (∀ i, i < ([8, 4] : List Nat).length →
      (execute [8, 4] 4 icC3 sC3).cols.getD i [] =
          sC3.cols.getD i [] ++
            appended_col [8, 4] (chunk_sizes (icC3.headD []).length 4) sC3.nextBlk i ∧
        (appended_col [8, 4] (chunk_sizes (icC3.headD []).length 4)
            sC3.nextBlk i).length = (icC3.headD []).length ∧
        (appended_col [8, 4] (chunk_sizes (icC3.headD []).length 4)
            sC3.nextBlk i).Nodup ∧
        ∀ ro ∈ appended_col [8, 4] (chunk_sizes (icC3.headD []).length 4) sC3.nextBlk i,
          ∀ col ∈ icC3, ∀ rin ∈ col, ro.blockId ≠ rin.blockId)
    ∧ ∀ i j, i < ([8, 4] : List Nat).length → j < ([8, 4] : List Nat).length →
        ∀ ro ∈ appended_col [8, 4] (chunk_sizes (icC3.headD []).length 4) sC3.nextBlk i,
          ∀ q ∈ appended_col [8, 4] (chunk_sizes (icC3.headD []).length 4) sC3.nextBlk j,
            ro.blockId = q.blockId → (i = j ∧ ro = q) ∨ rows_disjoint ro q :=
  execute_output_rows_contract [8, 4] 4 icC3 sC3 (by decide) (by decide) (by decide)
    (by decide)

/-! C4.  Reshape of the input tensors inside `execute`. -/

/-- C4 counterexample: with two bound input tensors of batch dimension 4 and a
short chunk of 2 frames, the forward pass sees the FIRST tensor reshaped to
batch 2 but the second still at batch 4, refuting the claim that every bound
input tensor is reshaped to `batchCount`. -/
theorem execute_reshape_claim_false :
    (execute [4] 4 icTwoRows sTwoBlobs).trace =
        [([⟨2, 3, 8, 8⟩, ⟨4, 3, 8, 8⟩], 2)] ∧
      ¬ ∀ e ∈ (execute [4] 4 icTwoRows sTwoBlobs).trace,
          ∀ bl ∈ e.1, bl.n = (e.2 : Int) := by
  constructor
  · decide
  · decide

/-- C4 amended: before each forward pass `execute` reshapes the batch dimension
of ONLY the first bound input tensor (`input_blobs[0]`) to the chunk's
`batchCount` (leaving its other dimensions intact); the tensors of all the
remaining input layers are never touched and keep their previous shapes. -/
theorem execute_reshapes_first_blob_only
    (outSizes : List Nat) (batch_size : Nat) (input_columns : List (List Row))
    (s : ExecState) (b0 : Blob) (rest : List Blob)
    (hblobs : s.blobs = b0 :: rest) :
    (∃ m : Blob, (execute outSizes batch_size input_columns s).blobs = m :: rest ∧
        m.c = b0.c ∧ m.h = b0.h ∧ m.w = b0.w)
    ∧ ∀ e ∈ (execute outSizes batch_size input_columns s).trace,
        e ∈ s.trace ∨
          ∃ m : Blob, e.1 = m :: rest ∧ m.n = (e.2 : Int) ∧
            m.c = b0.c ∧ m.h = b0.h ∧ m.w = b0.w :=
  foldl_chunks_blobs outSizes b0.c b0.h b0.w rest
    (chunk_sizes (input_columns.headD []).length batch_size) s
    ⟨b0, hblobs, rfl, rfl, rfl⟩

/-- C4 witness: the amended theorem at the two-blob state. -/
theorem execute_reshapes_first_blob_only_witness :
    (∃ m : Blob, (execute [4] 4 icTwoRows sTwoBlobs).blobs =
        m :: [(⟨4, 3, 8, 8⟩ : Blob)] ∧ m.c = 3 ∧ m.h = 8 ∧ m.w = 8)
    ∧ ∀ e ∈ (execute [4] 4 icTwoRows sTwoBlobs).trace,
        e ∈ sTwoBlobs.trace ∨
          ∃ m : Blob, e.1 = m :: [(⟨4, 3, 8, 8⟩ : Blob)] ∧ m.n = (e.2 : Int) ∧
            m.c = 3 ∧ m.h = 8 ∧ m.w = 8 :=
  execute_reshapes_first_blob_only [4] 4 icTwoRows sTwoBlobs ⟨4, 3, 8, 8⟩
    [⟨4, 3, 8, 8⟩] rfl

/-! C10.  `execute` with zero input rows. -/

/-- C10: calling `execute` with zero rows in the first input column performs no
forward pass, allocates no output block and appends no rows: the state (output
columns, allocation counter, blob shapes, forward-pass trace) is returned
unchanged. -/
theorem execute_empty_input_noop (outSizes : List Nat) (batch_size : Nat)
    (rest : List (List Row)) (s : ExecState) :
    execute outSizes batch_size ([] :: rest) s = s := by
  simp [execute, chunk_sizes, chunk_sizes_go]

end Scanner
